import Mathlib

/-!
Verification of the gix-ignore Search engine (src/gix-ignore/src/search.rs): ordered
accumulation of ignore-rule lists and the precedence algorithm picking the governing
rule for a candidate path. External collaborators (the line parser and the glob
matcher from gix-glob) are not part of the sources; where their behaviour matters
they are modelled from the specification, and the glob-matching primitive itself is
kept fully abstract (theorems quantify over it).
-/

namespace GixIgnore

/-- Paths and byte strings are modelled as sequences of characters. -/
abbrev Str := List Char

/-- The classification of an ignore pattern (gix-ignore `Kind`). -/
inductive Kind
  | Expendable
  | Precious
deriving DecidableEq

/-- Opaque representation of one glob pattern (owned by the external gix-glob collaborator). -/
structure GlobPattern where
  text : Str
deriving DecidableEq

/-- gix-glob `search::pattern::Mapping`: one pattern with its value and sequence number. -/
structure Mapping where
  pattern : GlobPattern
  value : Kind
  sequence_number : Nat
deriving DecidableEq

/-- gix-glob `search::pattern::List`: patterns from one source, with an optional
origin path and an optional base directory. -/
structure PatternList where
  patterns : List Mapping
  source : Option Str
  base : Option Str
deriving DecidableEq

/-- gix-ignore `Search`: an ordered sequence of pattern lists. -/
structure Search where
  patterns : List PatternList
deriving DecidableEq

/-- Case sensitivity mode (gix-glob `pattern::Case`). -/
inductive Case
  | Sensitive
  | Fold
deriving DecidableEq

/-- gix-ignore `search::Match`: the winning pattern plus provenance. -/
structure Match where
  pattern : GlobPattern
  source : Option Str
  kind : Kind
  sequence_number : Nat
deriving DecidableEq

/-- gix-ignore `search::Ignore`: configuration carrying the precious-marker flag. -/
structure Ignore where
  support_precious : Bool
deriving DecidableEq

/-- Helper of `splitLines`: accumulates the current line in reverse. -/
def splitLinesAux : Str → Str → List Str
  | [], acc => [acc.reverse]
  | c :: rest, acc =>
    if c = '\n' then acc.reverse :: splitLinesAux rest []
    else splitLinesAux rest (c :: acc)

/-- Split bytes into lines at newline characters. -/
def splitLines (s : Str) : List Str := splitLinesAux s []

/-- Modelled from the spec: one line of the external line parser (gix-ignore `parse`,
not among the sources). Blank and comment lines are skipped; with precious support
enabled a line starting with the reserved marker parses as Precious with the marker
stripped; every other line parses as Expendable with its text retained. -/
def parseLine (support_precious : Bool) (line : Str) : Option (GlobPattern × Kind) :=
  match line with
  | [] => none
  | c :: rest =>
    if c = '#' then none
    else if support_precious ∧ c = '$' then some (⟨rest⟩, Kind.Precious)
    else some (⟨c :: rest⟩, Kind.Expendable)

/-- Modelled from the spec: the external line-parser collaborator (gix-ignore `parse`,
not among the sources): `parse(bytes, precious_enabled)` yields (pattern, line_number,
Kind) triples, skipping blank and comment lines and numbering lines 1-based within the
given bytes. -/
def parse (bytes : Str) (support_precious : Bool) : List (GlobPattern × Nat × Kind) :=
  (splitLines bytes).enum.filterMap fun p =>
    (parseLine support_precious p.2).map fun q => (q.1, p.1 + 1, q.2)

/-- gix-ignore `Ignore::bytes_to_patterns` (search.rs:36): turn the parser's triples
into mappings, the line number becoming the sequence number. -/
def Ignore.bytes_to_patterns (i : Ignore) (bytes : Str) : List Mapping :=
  (parse bytes i.support_precious).map fun t => ⟨t.1, t.2.2, t.2.1⟩

/-- The external glob-matching primitive (gix-glob wildmatch), kept abstract: it tests
one pattern against one path given an effective basename offset, an is-dir flag and a
case mode. The wildcard mode is fixed by the code to NO_MATCH_SLASH_LITERAL and hence
absorbed into the function. Theorems quantify over this parameter. -/
def Matcher : Type := GlobPattern → Str → Nat → Option Bool → Case → Bool

/-- Modelled from the spec: gix-glob `Pattern::matches_repo_relative_path` (not among
the sources); an absent basename offset means the basename is taken to start at 0. -/
def matches_repo_relative_path (m : Matcher) (pat : GlobPattern) (path : Str)
    (basename_start_pos : Option Nat) (is_dir : Option Bool) (case : Case) : Bool :=
  m pat path (basename_start_pos.getD 0) is_dir case

/-- Index of the last slash in a path, if any (mirrors `relative_path.rfind(b"/")`). -/
def rfindSlash : Str → Option Nat
  | [] => none
  | c :: rest =>
    match rfindSlash rest with
    | some i => some (i + 1)
    | none => if c = '/' then some 0 else none

/-- Case folding of one character, for case-insensitive comparison. -/
def foldChar : Case → Char → Char
  | Case.Sensitive, c => c
  | Case.Fold, c => c.toLower

/-- Modelled from the spec: gix-glob `strip_base_handle_recompute_basename_pos` (not
among the sources). With no base, path and offset pass through unchanged; with a base,
the path must be prefixed by it (compared after case folding) or nothing is returned
and the list is skipped; if prefixed, the base is stripped and the basename offset is
recomputed for the shortened path as one past its last slash, none when it has none. -/
def PatternList.strip_base_handle_recompute_basename_pos (l : PatternList)
    (relative_path : Str) (basename_pos : Option Nat) (case : Case) :
    Option (Str × Option Nat) :=
  match l.base with
  | none => some (relative_path, basename_pos)
  | some b =>
    if (b.map (foldChar case)).isPrefixOf (relative_path.map (foldChar case)) then
      some (relative_path.drop b.length,
            (rfindSlash (relative_path.drop b.length)).map (· + 1))
    else none

/-- gix-ignore `search::pattern_matching_relative_path` (search.rs:129): strip the
list's base, then scan the entries in reverse and return a full `Match` for the first
entry the glob primitive accepts. -/
def pattern_matching_relative_path (m : Matcher) (list : PatternList)
    (relative_path : Str) (basename_pos : Option Nat) (is_dir : Option Bool)
    (case : Case) : Option Match :=
  match list.strip_base_handle_recompute_basename_pos relative_path basename_pos case with
  | none => none
  | some rp =>
    list.patterns.reverse.findSome? fun pm =>
      if matches_repo_relative_path m pm.pattern rp.1 rp.2 is_dir case then
        some ⟨pm.pattern, list.source, pm.value, pm.sequence_number⟩
      else none

/-- gix-ignore `search::pattern_idx_matching_relative_path` (search.rs:164): like the
full-match resolver, but returns only the index of the winning entry. -/
def pattern_idx_matching_relative_path (m : Matcher) (list : PatternList)
    (relative_path : Str) (basename_pos : Option Nat) (is_dir : Option Bool)
    (case : Case) : Option Nat :=
  match list.strip_base_handle_recompute_basename_pos relative_path basename_pos case with
  | none => none
  | some rp =>
    list.patterns.enum.reverse.findSome? fun p =>
      if matches_repo_relative_path m p.2.pattern rp.1 rp.2 is_dir case then
        some p.1
      else none

/-- gix-ignore `Search::pattern_matching_relative_path` (search.rs:191): compute the
default basename position as one past the last slash (none when the path has no
slash), then scan the lists in reverse and return the first per-list match. -/
def Search.pattern_matching_relative_path (m : Matcher) (s : Search)
    (relative_path : Str) (is_dir : Option Bool) (case : Case) : Option Match :=
  let basename_pos := (rfindSlash relative_path).map (· + 1)
  s.patterns.reverse.findSome? fun pl =>
    GixIgnore.pattern_matching_relative_path m pl relative_path basename_pos is_dir case

/-- Result of reading one file: missing, content bytes, or another I/O error. -/
inductive ReadResult
  | notFound
  | content (bytes : Str)
  | ioError (code : Nat)
deriving DecidableEq

/-- A file-system model: what reading each path yields. -/
def FileSystem : Type := Str → ReadResult

/-- Modelled from the spec: gix-glob `pattern::List::from_file` (not among the
sources): read the file's bytes; a missing file is not an error and produces no list;
any other I/O failure propagates; otherwise the list holds the parsed patterns, with
the file path as origin and the supplied base. -/
def pattern_list_from_file (fs : FileSystem) (file : Str) (base : Option Str)
    (parse_cfg : Ignore) : Except Nat (Option PatternList) :=
  match fs file with
  | ReadResult.notFound => Except.ok none
  | ReadResult.ioError e => Except.error e
  | ReadResult.content bytes =>
    Except.ok (some ⟨parse_cfg.bytes_to_patterns bytes, some file, base⟩)

/-- The repository-local exclude file location, `git_dir/info/exclude`. -/
def infoExcludePath (git_dir : Str) : Str := git_dir ++ "/info/exclude".toList

/-- gix-ignore `Search::from_git_dir` (search.rs:53): starting from the empty search,
extend with the optional list from the global excludes file (when provided and
present), then with the list from `git_dir/info/exclude`; I/O errors other than
not-found abort the whole call. -/
def Search.from_git_dir (fs : FileSystem) (git_dir : Str) (excludes_file : Option Str)
    (parse_cfg : Ignore) : Except Nat Search := do
  let l1 ← match excludes_file with
    | none => Except.ok none
    | some file => pattern_list_from_file fs file none parse_cfg
  let l2 ← pattern_list_from_file fs (infoExcludePath git_dir) none parse_cfg
  Except.ok ⟨l1.toList ++ l2.toList⟩

/-- gix-ignore `Search::from_overrides_inner` (search.rs:86): a single synthetic list;
each input string is parsed independently keeping only the first pattern it yields,
the sequence number being one plus the string's position in the input (enumeration
happens before dropping unparsable strings); origin and base are none. -/
def Search.from_overrides (strings : List Str) (parse_cfg : Ignore) : Search :=
  Search.mk [PatternList.mk
    (strings.enum.filterMap fun p =>
      (parse p.2 parse_cfg.support_precious).head?.map fun t =>
        Mapping.mk t.1 t.2.2 (p.1 + 1))
    none none]

/-- Modelled from the spec: gix-glob `pattern::List::from_bytes` (not among the
sources): build one list directly from an in-memory buffer, with the given source as
origin and the given root as base. -/
def pattern_list_from_bytes (bytes : Str) (source : Str) (root : Option Str)
    (parse_cfg : Ignore) : PatternList :=
  ⟨parse_cfg.bytes_to_patterns bytes, some source, root⟩

/-- gix-ignore `Search::add_patterns_buffer` (search.rs:114): push one list parsed
from the buffer onto the end of the lists. -/
def Search.add_patterns_buffer (s : Search) (bytes : Str) (source : Str)
    (root : Option Str) (parse_cfg : Ignore) : Search :=
  ⟨s.patterns ++ [pattern_list_from_bytes bytes source root parse_cfg]⟩

/-- Replace every sequence number of a list through `f`, leaving everything else. -/
def renumberList (f : Nat → Nat) (l : PatternList) : PatternList :=
  ⟨l.patterns.map fun mp => ⟨mp.pattern, mp.value, f mp.sequence_number⟩, l.source, l.base⟩

/-- Replace every sequence number of a search through `f`. -/
def renumberSearch (f : Nat → Nat) (s : Search) : Search :=
  ⟨s.patterns.map (renumberList f)⟩

/-- A concrete matcher instance: the pattern text must equal the path. -/
def m0 : Matcher := fun pat path _ _ _ => pat.text == path

/-- A concrete matcher instance accepting everything. -/
def mTrue : Matcher := fun _ _ _ _ _ => true

/-- Concrete one-pattern list with origin `f1`. -/
def wl1 : PatternList := ⟨[⟨⟨"x".toList⟩, Kind.Expendable, 1⟩], some "f1".toList, none⟩

/-- Concrete one-pattern list with origin `f2`. -/
def wl2 : PatternList := ⟨[⟨⟨"x".toList⟩, Kind.Expendable, 1⟩], some "f2".toList, none⟩

/-- Concrete two-pattern list: line 1 is a log glob, line 2 a literal name. -/
def wlA : PatternList :=
  ⟨[⟨⟨"*.log".toList⟩, Kind.Expendable, 1⟩, ⟨⟨"debug.log".toList⟩, Kind.Expendable, 2⟩],
   none, none⟩

/-- A concrete parse configuration without precious-marker support. -/
def cfg0 : Ignore := ⟨false⟩

/-- Concrete file system holding both the global excludes file and the local one. -/
def fsBoth : FileSystem := fun p =>
  if p = "g".toList then ReadResult.content "a".toList
  else if p = infoExcludePath "r".toList then ReadResult.content "b".toList
  else ReadResult.notFound

/-- Concrete file system holding only the repository-local exclude file. -/
def fsLocalOnly : FileSystem := fun p =>
  if p = infoExcludePath "r".toList then ReadResult.content "b".toList
  else ReadResult.notFound

/-- Concrete file system with no files at all. -/
def fsEmpty : FileSystem := fun _ => ReadResult.notFound

/-- Concrete file system failing with a real I/O error on the global excludes file. -/
def fsErr : FileSystem := fun p =>
  if p = "g".toList then ReadResult.ioError 7 else ReadResult.notFound

/-- Concrete file system failing with a real I/O error on the local exclude file. -/
def fsErrLocal : FileSystem := fun p =>
  if p = infoExcludePath "r".toList then ReadResult.ioError 9 else ReadResult.notFound

/-- The list the global excludes file of `fsBoth` produces. -/
def wlg : PatternList := ⟨cfg0.bytes_to_patterns "a".toList, some "g".toList, none⟩

/-- The list the local exclude file of `fsBoth` produces. -/
def wll : PatternList :=
  ⟨cfg0.bytes_to_patterns "b".toList, some (infoExcludePath "r".toList), none⟩

/-- In a reverse scan, when entry `j` yields a result and every later entry yields
none, the scan returns entry `j`'s result. -/
theorem findSome?_reverse_of_last {α β : Type} (l : List α) (f : α → Option β) (j : Nat)
    (hj : j < l.length) (hsome : (f (l.get ⟨j, hj⟩)).isSome)
    (hafter : ∀ k, j < k → ∀ hk : k < l.length, f (l.get ⟨k, hk⟩) = none) :
    l.reverse.findSome? f = f (l.get ⟨j, hj⟩) := by
  obtain ⟨b, hb⟩ := Option.isSome_iff_exists.mp hsome
  have hnone : (l.drop (j + 1)).reverse.findSome? f = none := by
    refine List.findSome?_eq_none_iff.mpr ?_
    intro x hx
    obtain ⟨n, hn, hget⟩ := List.mem_iff_getElem.mp (List.mem_reverse.mp hx)
    have hlen : j + 1 + n < l.length := by
      have := hn
      simp only [List.length_drop] at this
      omega
    have hx' : x = l.get ⟨j + 1 + n, hlen⟩ := by
      rw [← hget, List.getElem_drop]
      simp
    rw [hx']
    exact hafter (j + 1 + n) (by omega) hlen
  have htake : l.take (j + 1) = l.take j ++ [l.get ⟨j, hj⟩] := by
    rw [List.take_succ, List.getElem?_eq_getElem hj]
    simp
  conv_lhs => rw [← List.take_append_drop (j + 1) l]
  rw [List.reverse_append, List.findSome?_append, hnone, Option.none_or, htake,
      List.reverse_append]
  simp only [List.reverse_cons, List.reverse_nil, List.nil_append, List.singleton_append,
    List.findSome?_cons, hb]

/-- Two option-valued scans over the same list that agree pointwise up to a relation
agree globally up to that relation. -/
theorem findSome?_rel {γ A B : Type} (R : A → B → Prop) (f1 : γ → Option A)
    (f2 : γ → Option B) :
    ∀ m : List γ,
      (∀ x ∈ m, (f1 x = none ∧ f2 x = none) ∨ ∃ a b, f1 x = some a ∧ f2 x = some b ∧ R a b) →
      ((m.findSome? f1 = none ∧ m.findSome? f2 = none) ∨
        ∃ a b, m.findSome? f1 = some a ∧ m.findSome? f2 = some b ∧ R a b)
  | [], _ => by simp
  | x :: t, h => by
    rcases h x (by simp) with ⟨h1, h2⟩ | ⟨a, b, h1, h2, hr⟩
    · simpa [List.findSome?_cons, h1, h2] using
        findSome?_rel R f1 f2 t fun y hy => h y (by simp [hy])
    · exact Or.inr ⟨a, b, by simp [List.findSome?_cons, h1], by simp [List.findSome?_cons, h2], hr⟩

/-- C1: Cross-list precedence. In a Search with list L1 inserted first and L2 inserted
second, whenever a pattern of L1 and a pattern of L2 both match the queried path (the
per-list resolver yields a match for each), the match reported by
`Search::pattern_matching_relative_path` is exactly L2's match: lists are visited in
reverse insertion order and the first list yielding a match decides. -/
theorem cross_list_precedence (m : Matcher) (l1 l2 : PatternList) (p : Str)
    (is_dir : Option Bool) (case : Case) (m1 m2 : Match)
    (h1 : pattern_matching_relative_path m l1 p ((rfindSlash p).map (· + 1)) is_dir case
        = some m1)
    (h2 : pattern_matching_relative_path m l2 p ((rfindSlash p).map (· + 1)) is_dir case
        = some m2) :
    Search.pattern_matching_relative_path m ⟨[l1, l2]⟩ p is_dir case = some m2 := by
  simp [Search.pattern_matching_relative_path, List.findSome?_cons, h2]

/-- Closed instance of C1 at concrete lists and path. -/
theorem cross_list_precedence_witness :
    pattern_matching_relative_path m0 wl1 "x".toList ((rfindSlash "x".toList).map (· + 1))
        none Case.Sensitive = some ⟨⟨"x".toList⟩, some "f1".toList, Kind.Expendable, 1⟩ ∧
    pattern_matching_relative_path m0 wl2 "x".toList ((rfindSlash "x".toList).map (· + 1))
        none Case.Sensitive = some ⟨⟨"x".toList⟩, some "f2".toList, Kind.Expendable, 1⟩ ∧
    Search.pattern_matching_relative_path m0 ⟨[wl1, wl2]⟩ "x".toList none Case.Sensitive
        = some ⟨⟨"x".toList⟩, some "f2".toList, Kind.Expendable, 1⟩ :=
  ⟨by decide, by decide,
    cross_list_precedence m0 wl1 wl2 "x".toList none Case.Sensitive
      ⟨⟨"x".toList⟩, some "f1".toList, Kind.Expendable, 1⟩
      ⟨⟨"x".toList⟩, some "f2".toList, Kind.Expendable, 1⟩ (by decide) (by decide)⟩

/-- C2: Within-list precedence. In a list whose sequence numbers increase along the
entries (as in every constructed list), if the entries at positions i < j both match
and no later entry matches — the matching pattern at sequence number N2 being the last
match, as in the last-line-wins scenario — then the per-list resolver returns entry
j's match, whose sequence number N2 exceeds entry i's N1: entries are tested in
reverse insertion order and the first match wins. -/
theorem within_list_precedence (m : Matcher) (list : PatternList) (p : Str)
    (basename_pos : Option Nat) (is_dir : Option Bool) (case : Case)
    (rp : Str × Option Nat)
    (hstrip : list.strip_base_handle_recompute_basename_pos p basename_pos case = some rp)
    (hmono : list.patterns.Pairwise fun x y => x.sequence_number < y.sequence_number)
    (i j : Nat) (hij : i < j) (hj : j < list.patterns.length)
    (hi_match : matches_repo_relative_path m
        list.patterns[i].pattern rp.1 rp.2 is_dir case = true)
    (hj_match : matches_repo_relative_path m
        list.patterns[j].pattern rp.1 rp.2 is_dir case = true)
    (hlast : ∀ k, j < k → ∀ hk : k < list.patterns.length,
        matches_repo_relative_path m
          list.patterns[k].pattern rp.1 rp.2 is_dir case = false) :
    pattern_matching_relative_path m list p basename_pos is_dir case =
      some ⟨list.patterns[j].pattern, list.source,
            list.patterns[j].value,
            list.patterns[j].sequence_number⟩ ∧
    list.patterns[i].sequence_number < list.patterns[j].sequence_number := by
  constructor
  · have hscan := findSome?_reverse_of_last (l := list.patterns)
      (f := fun pm =>
        if matches_repo_relative_path m pm.pattern rp.1 rp.2 is_dir case then
          some (Match.mk pm.pattern list.source pm.value pm.sequence_number)
        else none)
      (j := j) hj (by simp [hj_match]) (fun k hk1 hk2 => by simp [hlast k hk1 hk2])
    simp only [pattern_matching_relative_path, hstrip]
    rw [hscan]
    simp [hj_match]
  · exact List.pairwise_iff_getElem.mp hmono i j (Nat.lt_trans hij hj) hj hij

/-- Closed instance of C2: the Scenario A list with a log glob at line 1 and a literal
name at line 2, queried under a matcher accepting both, reports sequence number 2. -/
theorem within_list_precedence_witness :
    pattern_matching_relative_path mTrue wlA "a/debug.log".toList none none Case.Sensitive
        = some ⟨⟨"debug.log".toList⟩, none, Kind.Expendable, 2⟩ ∧ (1 : Nat) < 2 := by
  have h := within_list_precedence mTrue wlA "a/debug.log".toList none none Case.Sensitive
    ("a/debug.log".toList, none) (by decide) (by decide) 0 1 (by decide) (by decide)
    (by decide) (by decide) (fun k h1 hk => absurd hk (by simp [wlA]; omega))
  exact ⟨h.1, h.2⟩

/-- Successful bind over `Except` means the first action succeeded and the
continuation succeeded on its value. -/
theorem except_bind_ok {ε α β : Type} {x : Except ε α} {f : α → Except ε β} {b : β}
    (h : bind x f = Except.ok b) : ∃ a, x = Except.ok a ∧ f a = Except.ok b := by
  cases x with
  | error e => exact absurd h (by simp [Bind.bind, Except.bind])
  | ok a => exact ⟨a, rfl, by simpa [Bind.bind, Except.bind] using h⟩

/-- Every list a successful file-backed load yields carries the supplied base and the
file path as origin. -/
theorem pattern_list_from_file_ok {fs : FileSystem} {file : Str} {base : Option Str}
    {cfg : Ignore} {r : Option PatternList}
    (h : pattern_list_from_file fs file base cfg = Except.ok r) :
    ∀ l ∈ r.toList, l.base = base ∧ l.source = some file := by
  cases hr : fs file <;> simp [pattern_list_from_file, hr] at h
  · subst h; simp
  · subst h; simp

/-- C3: Build-from-repository-roots list order. With both files present the Search
holds, in insertion order, first the global excludes list then the repository-local
`info/exclude` list (so the local file outranks the global one under the reverse
scan); with the global excludes path absent from disk and the local file present it
holds exactly that one local list; with both absent it holds zero lists and every
query reports no match. -/
theorem from_git_dir_list_order (fs : FileSystem) (git_dir gpath : Str) (cfg : Ignore)
    (bg bl : Str) :
    (fs gpath = ReadResult.content bg → fs (infoExcludePath git_dir) = ReadResult.content bl →
      Search.from_git_dir fs git_dir (some gpath) cfg =
        Except.ok ⟨[⟨cfg.bytes_to_patterns bg, some gpath, none⟩,
                    ⟨cfg.bytes_to_patterns bl, some (infoExcludePath git_dir), none⟩]⟩) ∧
    (fs gpath = ReadResult.notFound → fs (infoExcludePath git_dir) = ReadResult.content bl →
      Search.from_git_dir fs git_dir (some gpath) cfg =
        Except.ok ⟨[⟨cfg.bytes_to_patterns bl, some (infoExcludePath git_dir), none⟩]⟩) ∧
    (fs gpath = ReadResult.notFound → fs (infoExcludePath git_dir) = ReadResult.notFound →
      Search.from_git_dir fs git_dir (some gpath) cfg = Except.ok ⟨[]⟩ ∧
      ∀ (m : Matcher) (p : Str) (d : Option Bool) (c : Case),
        Search.pattern_matching_relative_path m ⟨[]⟩ p d c = none) := by
  refine ⟨?_, ?_, ?_⟩ <;> intro h1 h2 <;>
    simp [Search.from_git_dir, pattern_list_from_file, h1, h2,
      Search.pattern_matching_relative_path] <;>
    rfl

/-- Closed instance of C3 on concrete file systems. -/
theorem from_git_dir_list_order_witness :
    Search.from_git_dir fsBoth "r".toList (some "g".toList) cfg0 = Except.ok ⟨[wlg, wll]⟩ ∧
    Search.from_git_dir fsLocalOnly "r".toList (some "g".toList) cfg0 = Except.ok ⟨[wll]⟩ ∧
    Search.from_git_dir fsEmpty "r".toList (some "g".toList) cfg0 = Except.ok ⟨[]⟩ ∧
    Search.pattern_matching_relative_path m0 ⟨[]⟩ "q".toList none Case.Sensitive = none := by
  have h1 := (from_git_dir_list_order fsBoth "r".toList "g".toList cfg0
    "a".toList "b".toList).1 rfl rfl
  have h2 := (from_git_dir_list_order fsLocalOnly "r".toList "g".toList cfg0
    "a".toList "b".toList).2.1 rfl rfl
  have h3 := (from_git_dir_list_order fsEmpty "r".toList "g".toList cfg0
    "a".toList "b".toList).2.2 rfl rfl
  exact ⟨h1, h2, h3.1, h3.2 m0 "q".toList none Case.Sensitive⟩

/-- C5: File-backed error handling. A missing global excludes file or missing
`info/exclude` never makes `from_git_dir` fail; when a read fails with the error, the
value propagated out is exactly that error; and the call fails only when one of the
two reads fails with an I/O error other than not-found. -/
theorem from_git_dir_error_handling (fs : FileSystem) (git_dir gpath : Str)
    (excludes_file : Option Str) (cfg : Ignore) (e : Nat) :
    (Search.from_git_dir fs git_dir excludes_file cfg = Except.error e →
      (∃ f, excludes_file = some f ∧ fs f = ReadResult.ioError e) ∨
        fs (infoExcludePath git_dir) = ReadResult.ioError e) ∧
    (fs gpath = ReadResult.ioError e →
      Search.from_git_dir fs git_dir (some gpath) cfg = Except.error e) ∧
    ((fs gpath = ReadResult.notFound ∨ ∃ b, fs gpath = ReadResult.content b) →
      fs (infoExcludePath git_dir) = ReadResult.ioError e →
      Search.from_git_dir fs git_dir (some gpath) cfg = Except.error e) ∧
    ((fs gpath = ReadResult.notFound ∨ ∃ b, fs gpath = ReadResult.content b) →
      (fs (infoExcludePath git_dir) = ReadResult.notFound ∨
        ∃ b, fs (infoExcludePath git_dir) = ReadResult.content b) →
      ∃ s, Search.from_git_dir fs git_dir (some gpath) cfg = Except.ok s) := by
  refine ⟨?_, ?_, ?_, ?_⟩
  · intro herr
    cases excludes_file with
    | none =>
      cases hl : fs (infoExcludePath git_dir) <;>
        simp [Search.from_git_dir, pattern_list_from_file, hl, Bind.bind, Except.bind] at herr
      case ioError e2 => exact Or.inr (by rw [herr])
    | some f =>
      cases hg : fs f with
      | ioError e2 =>
        simp [Search.from_git_dir, pattern_list_from_file, hg, Bind.bind, Except.bind] at herr
        exact Or.inl ⟨f, rfl, by rw [hg, herr]⟩
      | notFound =>
        cases hl : fs (infoExcludePath git_dir) <;>
          simp [Search.from_git_dir, pattern_list_from_file, hg, hl, Bind.bind,
            Except.bind] at herr
        case ioError e2 => exact Or.inr (by rw [herr])
      | content bytes =>
        cases hl : fs (infoExcludePath git_dir) <;>
          simp [Search.from_git_dir, pattern_list_from_file, hg, hl, Bind.bind,
            Except.bind] at herr
        case ioError e2 => exact Or.inr (by rw [herr])
  · intro hg
    simp [Search.from_git_dir, pattern_list_from_file, hg, Bind.bind, Except.bind]
  · rintro (hg | ⟨b, hg⟩) hl <;>
      simp [Search.from_git_dir, pattern_list_from_file, hg, hl, Bind.bind, Except.bind]
  · rintro (hg | ⟨b, hg⟩) (hl | ⟨b2, hl⟩) <;>
      simp [Search.from_git_dir, pattern_list_from_file, hg, hl, Bind.bind, Except.bind] <;>
      exact ⟨_, rfl⟩

/-- Closed instance of C5: a real I/O error on either file propagates, and all-missing
files still succeed. -/
theorem from_git_dir_error_handling_witness :
    Search.from_git_dir fsErr "r".toList (some "g".toList) cfg0 = Except.error 7 ∧
    Search.from_git_dir fsErrLocal "r".toList (some "g".toList) cfg0 = Except.error 9 ∧
    ∃ s, Search.from_git_dir fsEmpty "r".toList (some "g".toList) cfg0 = Except.ok s := by
  refine ⟨?_, ?_, ?_⟩
  · exact (from_git_dir_error_handling fsErr "r".toList "g".toList
      (some "g".toList) cfg0 7).2.1 rfl
  · exact (from_git_dir_error_handling fsErrLocal "r".toList "g".toList
      (some "g".toList) cfg0 9).2.2.1 (Or.inl rfl) rfl
  · exact (from_git_dir_error_handling fsEmpty "r".toList "g".toList
      (some "g".toList) cfg0 0).2.2.2 (Or.inl rfl) (Or.inl rfl)

/-- C10: Static lists are tree-wide. Every list of a Search built by `from_git_dir`
has no base, so base-prefix filtering never skips it: stripping passes every queried
path through unchanged and the path is tested against the list's patterns regardless
of its directory. -/
theorem from_git_dir_lists_tree_wide (fs : FileSystem) (git_dir : Str)
    (excludes_file : Option Str) (cfg : Ignore) (s : Search)
    (h : Search.from_git_dir fs git_dir excludes_file cfg = Except.ok s) :
    ∀ l ∈ s.patterns, l.base = none ∧
      ∀ (p : Str) (bpos : Option Nat) (c : Case),
        l.strip_base_handle_recompute_basename_pos p bpos c = some (p, bpos) := by
  intro l hl
  have hbase : l.base = none := by
    cases excludes_file with
    | none =>
      simp only [Search.from_git_dir] at h
      obtain ⟨a, ha, h⟩ := except_bind_ok h
      obtain ⟨a2, ha2, h⟩ := except_bind_ok h
      have hs : s = ⟨a.toList ++ a2.toList⟩ := by
        cases h; rfl
      subst hs
      rcases List.mem_append.mp hl with hm | hm
      · cases ha; simp at hm
      · exact (pattern_list_from_file_ok ha2 l hm).1
    | some f =>
      simp only [Search.from_git_dir] at h
      obtain ⟨a, ha, h⟩ := except_bind_ok h
      obtain ⟨a2, ha2, h⟩ := except_bind_ok h
      have hs : s = ⟨a.toList ++ a2.toList⟩ := by
        cases h; rfl
      subst hs
      rcases List.mem_append.mp hl with hm | hm
      · exact (pattern_list_from_file_ok ha l hm).1
      · exact (pattern_list_from_file_ok ha2 l hm).1
  refine ⟨hbase, ?_⟩
  intro p bpos c
  simp [PatternList.strip_base_handle_recompute_basename_pos, hbase]

/-- Exactly the index returned by the byte-string reverse find of a slash: when it
returns an index, that position holds a slash and no later position does; when it
returns none, the path has no slash. -/
theorem rfindSlash_spec (p : Str) :
    (∀ k, rfindSlash p = some k → p[k]? = some '/' ∧ ∀ i, k < i → p[i]? ≠ some '/') ∧
    (rfindSlash p = none → '/' ∉ p) := by
  induction p with
  | nil =>
    constructor
    · intro k hk; simp [rfindSlash] at hk
    · intro _; simp
  | cons c rest ih =>
    constructor
    · intro k hk
      simp only [rfindSlash] at hk
      cases hr : rfindSlash rest with
      | some i =>
        rw [hr] at hk
        obtain rfl : i + 1 = k := Option.some.inj hk
        refine ⟨by simpa using (ih.1 i hr).1, ?_⟩
        intro j hj
        cases j with
        | zero => omega
        | succ j2 =>
          simp only [List.getElem?_cons_succ]
          exact (ih.1 i hr).2 j2 (by omega)
      | none =>
        rw [hr] at hk
        by_cases hc : c = '/'
        · rw [if_pos hc] at hk
          obtain rfl : (0 : Nat) = k := Option.some.inj hk
          refine ⟨by simp [hc], ?_⟩
          intro j hj
          cases j with
          | zero => omega
          | succ j2 =>
            simp only [List.getElem?_cons_succ]
            intro hmem
            exact (ih.2 hr) (List.getElem?_mem hmem)
        · rw [if_neg hc] at hk
          exact absurd hk (by simp)
    · intro hnone
      simp only [rfindSlash] at hnone
      cases hr : rfindSlash rest with
      | some i => rw [hr] at hnone; cases hnone
      | none =>
        rw [hr] at hnone
        by_cases hc : c = '/'
        · rw [if_pos hc] at hnone; cases hnone
        · intro hmem
          rcases List.mem_cons.mp hmem with h1 | h1
          · exact hc h1.symm
          · exact (ih.2 hr) h1

/-- C4: Basename-offset default. The Search-level query passes each list the offset
computed from the relative path as the slash position plus one; that computation
finds the last slash of the path (the returned offset is one past a position holding
a slash with no later slash), and when the path has no slash the computed offset is
absent and matching behaves as offset 0. -/
theorem basename_offset_default (m : Matcher) (s : Search) (p : Str)
    (is_dir : Option Bool) (case : Case) :
    Search.pattern_matching_relative_path m s p is_dir case =
      s.patterns.reverse.findSome? (fun pl =>
        pattern_matching_relative_path m pl p ((rfindSlash p).map (· + 1)) is_dir case) ∧
    (∀ k, rfindSlash p = some k → p[k]? = some '/' ∧ (∀ i, k < i → p[i]? ≠ some '/') ∧
      ((rfindSlash p).map (· + 1)) = some (k + 1)) ∧
    (rfindSlash p = none → '/' ∉ p ∧ ((rfindSlash p).map (· + 1)) = none ∧
      ∀ pat, matches_repo_relative_path m pat p ((rfindSlash p).map (· + 1)) is_dir case =
        m pat p 0 is_dir case) := by
  refine ⟨rfl, ?_, ?_⟩
  · intro k hk
    exact ⟨((rfindSlash_spec p).1 k hk).1, ((rfindSlash_spec p).1 k hk).2, by rw [hk]; rfl⟩
  · intro hnone
    exact ⟨(rfindSlash_spec p).2 hnone, by rw [hnone]; rfl,
      fun pat => by rw [hnone]; rfl⟩

/-- Closed instance of C4 on a path with a slash and one without. -/
theorem basename_offset_default_witness :
    ("a/b".toList)[1]? = some '/' ∧ ((rfindSlash "a/b".toList).map (· + 1)) = some 2 ∧
    ('/' ∉ "ab".toList) ∧ ((rfindSlash "ab".toList).map (· + 1)) = none := by
  have h1 := (basename_offset_default mTrue ⟨[]⟩ "a/b".toList none Case.Sensitive).2.1 1
    (by decide)
  have h2 := (basename_offset_default mTrue ⟨[]⟩ "ab".toList none Case.Sensitive).2.2
    (by decide)
  exact ⟨h1.1, h1.2.2, h2.1, h2.2.1⟩

/-- C6: Overrides construction. `from_overrides` (which cannot fail) returns a Search
holding exactly one synthetic list with no origin and no base, whose entries are, in
input order, the first pattern each string parses to, strings producing no pattern
being silently dropped. -/
theorem from_overrides_shape (strings : List Str) (cfg : Ignore) :
    (Search.from_overrides strings cfg).patterns.map (fun l =>
        (l.source, l.base, l.patterns.map fun mp => (mp.pattern, mp.value))) =
      [(none, none, strings.filterMap fun str =>
          ((parse str cfg.support_precious).head?).map fun t => (t.1, t.2.2))] := by
  have hsnd : strings = List.map Prod.snd strings.enum := (List.enumFrom_map_snd 0 strings).symm
  have key : (strings.enum.filterMap fun q =>
        ((parse q.2 cfg.support_precious).head?).map fun t =>
          Mapping.mk t.1 t.2.2 (q.1 + 1)).map (fun mp => (mp.pattern, mp.value)) =
      strings.filterMap fun str =>
        ((parse str cfg.support_precious).head?).map fun t => (t.1, t.2.2) := by
    rw [List.map_filterMap]
    conv_rhs => rw [hsnd]
    rw [List.filterMap_map]
    congr 1
    funext q
    simp [Option.map_map]
    rfl
  simp only [Search.from_overrides, List.map_cons, List.map_nil, key]

/-- C7: Append frame property. `add_patterns_buffer` (which cannot fail) appends the
new list at the end — the highest-priority position of the reverse scan; for any path
outside the new list's base (base stripping yields nothing) the Search verdict is
unchanged; and an empty buffer yields a list with zero entries that changes no query
result at all. -/
theorem add_patterns_buffer_frame (m : Matcher) (s : Search) (bytes source0 : Str)
    (root : Option Str) (cfg : Ignore) (p : Str) (is_dir : Option Bool) (case : Case) :
    (s.add_patterns_buffer bytes source0 root cfg).patterns =
      s.patterns ++ [pattern_list_from_bytes bytes source0 root cfg] ∧
    ((pattern_list_from_bytes bytes source0 root cfg).strip_base_handle_recompute_basename_pos
        p ((rfindSlash p).map (· + 1)) case = none →
      Search.pattern_matching_relative_path m (s.add_patterns_buffer bytes source0 root cfg)
          p is_dir case =
        Search.pattern_matching_relative_path m s p is_dir case) ∧
    cfg.bytes_to_patterns [] = [] ∧
    Search.pattern_matching_relative_path m (s.add_patterns_buffer [] source0 root cfg)
        p is_dir case =
      Search.pattern_matching_relative_path m s p is_dir case := by
  refine ⟨rfl, ?_, rfl, ?_⟩
  · intro hstrip
    simp [Search.pattern_matching_relative_path, Search.add_patterns_buffer,
      List.findSome?_cons, pattern_matching_relative_path, hstrip]
  · have hbn : cfg.bytes_to_patterns ([] : Str) = [] := rfl
    have hres : pattern_matching_relative_path m (pattern_list_from_bytes [] source0 root cfg)
        p ((rfindSlash p).map (· + 1)) is_dir case = none := by
      cases hs : (pattern_list_from_bytes [] source0 root
          cfg).strip_base_handle_recompute_basename_pos p ((rfindSlash p).map (· + 1)) case with
      | none => simp [pattern_matching_relative_path, hs]
      | some rp =>
        simp only [pattern_matching_relative_path, pattern_list_from_bytes, hbn]
        split <;> rfl
    simp [Search.pattern_matching_relative_path, Search.add_patterns_buffer,
      List.findSome?_cons, hres]

/-- Closed instance of C7: appending a list based in a directory the queried path is
outside of leaves the verdict unchanged. -/
theorem add_patterns_buffer_frame_witness :
    Search.pattern_matching_relative_path m0
        (Search.add_patterns_buffer ⟨[wl1]⟩ "n".toList "s".toList (some "b".toList) cfg0)
        "x".toList none Case.Sensitive =
      Search.pattern_matching_relative_path m0 ⟨[wl1]⟩ "x".toList none Case.Sensitive :=
  (add_patterns_buffer_frame m0 ⟨[wl1]⟩ "n".toList "s".toList (some "b".toList) cfg0
    "x".toList none Case.Sensitive).2.1 (by decide)

/-- Closed instance of C10 on a concrete repository layout. -/
theorem from_git_dir_lists_tree_wide_witness :
    wlg.base = none ∧
    wlg.strip_base_handle_recompute_basename_pos "q".toList none Case.Sensitive =
      some ("q".toList, none) := by
  have h := from_git_dir_lists_tree_wide fsBoth "r".toList (some "g".toList) cfg0
    ⟨[wlg, wll]⟩ (by rfl) wlg (by simp)
  exact ⟨h.1, h.2 "q".toList none Case.Sensitive⟩

/-- Renumbering sequence numbers commutes with the per-list reverse scan. -/
theorem renumber_scan_eq (m : Matcher) (f : Nat → Nat) (l : PatternList)
    (d : Option Bool) (c : Case) (rp : Str × Option Nat) :
    ((l.patterns.map fun mp => Mapping.mk mp.pattern mp.value (f mp.sequence_number)).reverse.findSome?
      (fun pm => if matches_repo_relative_path m pm.pattern rp.1 rp.2 d c then
          some (Match.mk pm.pattern l.source pm.value pm.sequence_number) else none)) =
    (l.patterns.reverse.findSome? (fun pm =>
        if matches_repo_relative_path m pm.pattern rp.1 rp.2 d c then
          some (Match.mk pm.pattern l.source pm.value pm.sequence_number) else none)).map
      (fun mt => Match.mk mt.pattern mt.source mt.kind (f mt.sequence_number)) := by
  rw [← List.map_reverse, List.findSome?_map, List.map_findSome?]
  congr 1
  funext pm
  by_cases hm : matches_repo_relative_path m pm.pattern rp.1 rp.2 d c <;>
    simp [hm, Function.comp]

/-- Renumbering sequence numbers only renumbers the per-list resolver's result. -/
theorem renumber_list_resolver (m : Matcher) (f : Nat → Nat) (l : PatternList) (p : Str)
    (bpos : Option Nat) (d : Option Bool) (c : Case) :
    pattern_matching_relative_path m (renumberList f l) p bpos d c =
      (pattern_matching_relative_path m l p bpos d c).map
        (fun mt => ⟨mt.pattern, mt.source, mt.kind, f mt.sequence_number⟩) := by
  cases hb : l.base with
  | none =>
    simp only [pattern_matching_relative_path,
      PatternList.strip_base_handle_recompute_basename_pos, renumberList, hb]
    exact renumber_scan_eq m f l d c (p, bpos)
  | some b =>
    simp only [pattern_matching_relative_path,
      PatternList.strip_base_handle_recompute_basename_pos, renumberList, hb]
    by_cases hpre : (b.map (foldChar c)).isPrefixOf (p.map (foldChar c))
    · simp only [hpre, if_true]
      exact renumber_scan_eq m f l d c
        (p.drop b.length, (rfindSlash (p.drop b.length)).map (· + 1))
    · simp [hpre]

/-- C8 counterexample: in the overrides constructor, enumeration happens before
unparsable strings are dropped, so with inputs [comment, one pattern] the single
remaining entry — at 1-based position 1 of its list — carries sequence number 2. -/
theorem sequence_number_position_counterexample :
    (Search.from_overrides ["#c".toList, "a".toList] cfg0).patterns.map
        (fun l => l.patterns.map fun mp => mp.sequence_number) = [[2]] ∧
    (Search.from_overrides ["#c".toList, "a".toList] cfg0).patterns.map
        (fun l => l.patterns.length) = [1] ∧
    [[2]] ≠ [[1]] :=
  ⟨by decide, by decide, by decide⟩

/-- C8 amended: each entry's sequence number is its 1-based position in the
originating source — the input-string position for overrides, the line number within
the buffer's lines for byte-backed lists — which can exceed the entry's position in
its list when sources yield no pattern; and sequence numbers never influence which
list or entry wins: renumbering them arbitrarily only renumbers the reported match. -/
theorem sequence_number_source_position (strings : List Str) (bytes : Str) (cfg : Ignore)
    (f : Nat → Nat) (s : Search) (m : Matcher) (p : Str) (is_dir : Option Bool)
    (case : Case) :
    (Search.from_overrides strings cfg).patterns.map (fun l =>
        l.patterns.map fun mp => mp.sequence_number) =
      [strings.enum.filterMap fun q =>
        ((parse q.2 cfg.support_precious).head?).map fun _ => q.1 + 1] ∧
    (cfg.bytes_to_patterns bytes).map (fun mp => mp.sequence_number) =
      (splitLines bytes).enum.filterMap (fun q =>
        (parseLine cfg.support_precious q.2).map fun _ => q.1 + 1) ∧
    Search.pattern_matching_relative_path m (renumberSearch f s) p is_dir case =
      (Search.pattern_matching_relative_path m s p is_dir case).map
        (fun mt => ⟨mt.pattern, mt.source, mt.kind, f mt.sequence_number⟩) := by
  refine ⟨?_, ?_, ?_⟩
  · simp only [Search.from_overrides, List.map_cons, List.map_nil]
    rw [List.map_filterMap]
    have hfun : (fun q : Nat × Str =>
        Option.map (fun mp => mp.sequence_number)
          (Option.map (fun t : GlobPattern × Nat × Kind =>
              Mapping.mk t.1 t.2.2 (q.1 + 1)) (parse q.2 cfg.support_precious).head?)) =
        (fun q : Nat × Str =>
          Option.map (fun _ => q.1 + 1) (parse q.2 cfg.support_precious).head?) := by
      funext q
      simp [Option.map_map]
      rfl
    rw [hfun]
  · simp only [Ignore.bytes_to_patterns, parse]
    rw [List.map_map, List.map_filterMap]
    have hfun : (fun q : Nat × Str =>
        Option.map ((fun mp => mp.sequence_number) ∘
            (fun t : GlobPattern × Nat × Kind => Mapping.mk t.1 t.2.2 t.2.1))
          (Option.map (fun r : GlobPattern × Kind => (r.1, q.1 + 1, r.2))
            (parseLine cfg.support_precious q.2))) =
        (fun q : Nat × Str =>
          Option.map (fun _ => q.1 + 1) (parseLine cfg.support_precious q.2)) := by
      funext q
      simp [Option.map_map]
      rfl
    rw [hfun]
  · simp only [Search.pattern_matching_relative_path, renumberSearch]
    rw [← List.map_reverse, List.findSome?_map, List.map_findSome?]
    congr 1
    funext pl
    exact renumber_list_resolver m f pl p ((rfindSlash p).map (· + 1)) is_dir case

/-- C9: Equivalence of the two query entry points. For every list, path, offset,
is-dir flag and case mode, the index query and the full-match query either both
report nothing, or the index query reports an index i in bounds and the full query
reports exactly the match built from the entry at i with the list's source. -/
theorem idx_query_equivalence (m : Matcher) (list : PatternList) (p : Str)
    (bpos : Option Nat) (is_dir : Option Bool) (case : Case) :
    (pattern_idx_matching_relative_path m list p bpos is_dir case = none ∧
      pattern_matching_relative_path m list p bpos is_dir case = none) ∨
    ∃ i, ∃ h : i < list.patterns.length,
      pattern_idx_matching_relative_path m list p bpos is_dir case = some i ∧
      pattern_matching_relative_path m list p bpos is_dir case =
        some ⟨(list.patterns.get ⟨i, h⟩).pattern, list.source,
              (list.patterns.get ⟨i, h⟩).value,
              (list.patterns.get ⟨i, h⟩).sequence_number⟩ := by
  cases hs : list.strip_base_handle_recompute_basename_pos p bpos case with
  | none =>
    left
    constructor <;>
      simp [pattern_matching_relative_path, pattern_idx_matching_relative_path, hs]
  | some rp =>
    simp only [pattern_matching_relative_path, pattern_idx_matching_relative_path, hs]
    have hrev : list.patterns.reverse = list.patterns.enum.reverse.map Prod.snd := by
      rw [List.map_reverse, List.enum_eq_enumFrom, List.enumFrom_map_snd]
    rw [hrev, List.findSome?_map]
    have hrel := findSome?_rel
      (fun i mt => ∃ h : i < list.patterns.length,
        mt = ⟨(list.patterns.get ⟨i, h⟩).pattern, list.source,
              (list.patterns.get ⟨i, h⟩).value,
              (list.patterns.get ⟨i, h⟩).sequence_number⟩)
      (fun q : Nat × Mapping =>
        if matches_repo_relative_path m q.2.pattern rp.1 rp.2 is_dir case then some q.1
        else none)
      ((fun pm : Mapping =>
        if matches_repo_relative_path m pm.pattern rp.1 rp.2 is_dir case then
          some (Match.mk pm.pattern list.source pm.value pm.sequence_number)
        else none) ∘ Prod.snd)
      list.patterns.enum.reverse ?_
    · rcases hrel with ⟨h1, h2⟩ | ⟨a, b, h1, h2, hR⟩
      · exact Or.inl ⟨h1, h2⟩
      · obtain ⟨hlt, rfl⟩ := hR
        exact Or.inr ⟨a, hlt, h1, h2⟩
    · intro x hx
      have hmem : (x.1, x.2) ∈ list.patterns.enum := by
        simpa using List.mem_reverse.mp hx
      have hget : list.patterns[x.1]? = some x.2 :=
        List.mk_mem_enum_iff_getElem?.mp hmem
      have hlt : x.1 < list.patterns.length :=
        (List.getElem?_eq_some.mp hget).1
      have hx2 : x.2 = list.patterns.get ⟨x.1, hlt⟩ := by
        have := (List.getElem?_eq_some.mp hget).2
        simp [← this]
      by_cases hm : matches_repo_relative_path m x.2.pattern rp.1 rp.2 is_dir case
      · right
        refine ⟨x.1, Match.mk x.2.pattern list.source x.2.value x.2.sequence_number,
          by simp [hm], by simp [Function.comp, hm], hlt, ?_⟩
        rw [hx2]
      · left
        constructor <;> simp [Function.comp, hm]

end GixIgnore
